import Mathlib

/-!
# BitcoinAddressGenerator: secp256k1 field arithmetic, point doubling, serialization

A shallow embedding of `field.go`.  Go `*big.Int` values are unbounded integers (`Int`);
the `Field` member of a `FieldElement` is a pointer, compared by identity in the source
(`f1.Field != f2.Field`), so it is modelled as an address together with the integer stored
there.  A Go `panic` is an `Except.error`.
-/

namespace BitcoinAddressGenerator

/-! ## Library model: `math/big` -/

/-- The ways an operation of `field.go` can abort: the explicit `panic("Fields are different")`
and the run-time panic of `big.Int.Mod` on a zero modulus. -/
inductive Panic where
  | fieldsAreDifferent
  | divisionByZero
deriving DecidableEq, Repr

instance instDecidableEqExcept {ε α : Type} [DecidableEq ε] [DecidableEq α] :
    DecidableEq (Except ε α)
  | .ok a, .ok b =>
    if h : a = b then isTrue (by rw [h]) else isFalse (fun h2 => h (Except.ok.inj h2))
  | .error a, .error b =>
    if h : a = b then isTrue (by rw [h]) else isFalse (fun h2 => h (Except.error.inj h2))
  | .ok _, .error _ => isFalse (fun h => Except.noConfusion h)
  | .error _, .ok _ => isFalse (fun h => Except.noConfusion h)

/-- A `*big.Int` used as a modulus reference: `addr` is the pointer identity, `val` the
integer it points to. -/
structure BigIntRef where
  addr : Nat
  val : Int
deriving DecidableEq, Repr

/-- Model of `new(big.Int).Mod(x, y)`: the Euclidean modulus, a run-time panic when `y == 0`. -/
def bigMod (x y : Int) : Except Panic Int :=
  if y = 0 then .error .divisionByZero else .ok (x % y)

/-- Model of `x.IsUint64()`: `x` is representable as a `uint64`. -/
def IsUint64 (x : Int) : Bool :=
  decide (0 ≤ x) && decide (x < 2 ^ 64)

/-- Square-and-multiply loop: `fuel` bounds the number of exponent bits consumed. -/
def powModAux (m : Nat) : Nat → Nat → Nat → Nat → Nat
  | 0, _, _, acc => acc
  | fuel + 1, b, e, acc =>
    if e = 0 then acc
    else powModAux m fuel (b * b % m) (e / 2) (if e % 2 = 1 then acc * b % m else acc)

/-- Modular exponentiation `b ^ e mod m` on naturals by square-and-multiply. -/
def powMod (b e m : Nat) : Nat :=
  powModAux m e (b % m) e 1 % m

/-- Model of `new(big.Int).Exp(x, y, m)` for an exponent `y ≥ 0` and a modulus `m > 0`
(the only way `field.go` calls it): `x ** y mod m`, the result in `[0, m)`. -/
def bigExp (x : Int) (y m : Nat) : Int :=
  Int.ofNat (powMod (x % (m : Int)).toNat y m)

/-- Big-endian byte loop behind `Bytes`; `fuel` bounds the number of bytes produced. -/
def bytesAux : Nat → Nat → List Nat → List Nat
  | 0, _, acc => acc
  | fuel + 1, n, acc => if n = 0 then acc else bytesAux fuel (n / 256) (n % 256 :: acc)

/-- Model of `x.Bytes()`: the big-endian bytes of `|x|`, without leading zero bytes. -/
def Bytes (x : Int) : List Nat :=
  bytesAux x.natAbs x.natAbs []

/-- Model of `x.Text(10)`: the decimal text of `x`. -/
def Text10 (x : Int) : String :=
  toString x

/-- Model of the builtin `copy(dst, src)`: the first `min (len dst) (len src)` bytes of `dst`
are overwritten by those of `src`; the result is the new content of `dst`. -/
def copy (dst src : List Nat) : List Nat :=
  src.take dst.length ++ dst.drop src.length

/-! ## Data model -/

/-- The Go struct `FieldElement { Value, Field *big.Int }`. -/
structure FieldElement where
  Value : Int
  Field : BigIntRef
deriving DecidableEq, Repr

/-- The Go struct `Point { X, Y *FieldElement }`. -/
structure Point where
  X : FieldElement
  Y : FieldElement
deriving DecidableEq, Repr

/-- The global `P`, set in `init`: the secp256k1 field prime, one modulus instance. -/
def P : BigIntRef :=
  ⟨1, 0xFFFFFFFFFFFFFFFFFFFFFFFFFFFFFFFFFFFFFFFFFFFFFFFFFFFFFFFEFFFFFC2F⟩

/-- The global `B`, set in `init`: the curve constant 7. -/
def B : FieldElement :=
  ⟨0x0000000000000000000000000000000000000000000000000000000000000007, P⟩

/-- The global `G`, set in `init`: the generator point. -/
def G : Point :=
  { X := ⟨0x79BE667EF9DCBBAC55A06295CE870B07029BFCDB2DCE28D959F2815B16F81798, P⟩
    Y := ⟨0x483ADA7726A3C4655DA4FBFC0E1108A8FD17B448A68554199C47D08FFB10D4B8, P⟩ }

/-- A valid element of the secp256k1 field: `Field` is the instance `P`, `0 ≤ Value < P`. -/
def FieldElement.Valid (a : FieldElement) : Prop :=
  a.Field = P ∧ 0 ≤ a.Value ∧ a.Value < P.val

instance (a : FieldElement) : Decidable a.Valid := by
  unfold FieldElement.Valid; infer_instance

/-! ## Field arithmetic -/

/-- Function `NewSecp256k1FieldElement(value)`: `math.U256` is `value AND (2^256 - 1)`. -/
def NewSecp256k1FieldElement (value : Int) : FieldElement :=
  let res := value % 2 ^ 256
  { Value := res, Field := P }

/-- Method `(f1 *FieldElement) Mul(f2)`. -/
def FieldElement.Mul (f1 f2 : FieldElement) : Except Panic FieldElement :=
  if f1.Field.addr ≠ f2.Field.addr then .error .fieldsAreDifferent
  else do
    let res := f1.Value * f2.Value
    let res ← bigMod res f1.Field.val
    pure ⟨res, P⟩

/-- Method `(f1 *FieldElement) Div(f2)`. -/
def FieldElement.Div (f1 f2 : FieldElement) : Except Panic FieldElement :=
  if f1.Field.addr ≠ f2.Field.addr then .error .fieldsAreDifferent
  else
    -- a * b^(p-2)
    let v3 : Int := 2
    let vp2 := P.val - v3
    let vbp2 := bigExp f2.Value vp2.toNat P.val.toNat
    let vbp2fe : FieldElement := ⟨vbp2, P⟩
    f1.Mul vbp2fe

/-- Method `(f1 *FieldElement) Minus(f2)`. -/
def FieldElement.Minus (f1 f2 : FieldElement) : Except Panic FieldElement :=
  if f1.Field.addr ≠ f2.Field.addr then .error .fieldsAreDifferent
  else do
    let res := f1.Value - f2.Value
    if !IsUint64 res then
      let resAbs := |res|
      let resAbsMod ← bigMod resAbs P.val
      let result := P.val - resAbsMod
      pure ⟨result, f1.Field⟩
    else
      let result ← bigMod res f1.Field.val
      pure ⟨result, f1.Field⟩

/-- Method `(f1 *FieldElement) Add(f2)`. -/
def FieldElement.Add (f1 f2 : FieldElement) : Except Panic FieldElement :=
  if f1.Field.addr ≠ f2.Field.addr then .error .fieldsAreDifferent
  else do
    let res := f1.Value + f2.Value
    let res ← bigMod res f1.Field.val
    pure ⟨res, P⟩

/-- Method `(f1 *FieldElement) Equal(f2)`. -/
def FieldElement.Equal (f1 f2 : FieldElement) : Except Panic Bool :=
  if f1.Field.addr ≠ f2.Field.addr then .error .fieldsAreDifferent
  else
    pure (decide (f1.Value = f2.Value))

/-! ## Point operations -/

/-- Method `(p *Point) encodeUncompressedSecBytes()`. -/
def Point.encodeUncompressedSecBytes (p : Point) : List Nat :=
  let result := List.replicate (32 + 1) 0
  -- Check if Y is odd
  let v2 : Int := 2
  let mod := p.Y.Value % v2
  let isEven := decide (Text10 mod = "2")
  let result := if isEven then result.set 0 2 else result.set 0 3
  result.take 1 ++ copy (result.drop 1) (Bytes p.Y.Value)

/-- Method `(p *Point) IsOnSecpCurve()`. -/
def Point.IsOnSecpCurve (p : Point) : Except Panic Bool := do
  -- y² = x³ + b
  let y2 ← p.Y.Mul p.Y
  let x3 ← (← p.X.Mul p.X).Mul p.X
  let xRes ← x3.Add B
  xRes.Equal y2

/-- Method `(p *Point) MultiplyScalar()`. -/
def Point.MultiplyScalar (p : Point) : Except Panic Point := do
  -- c = (3px2 + a) / 2py
  -- rx = c2 - 2px
  -- ry = c (px - rx) - py
  let vx2 ← p.X.Mul p.X
  let v3x2 ← vx2.Mul (NewSecp256k1FieldElement 3)
  let v2py ← p.Y.Mul (NewSecp256k1FieldElement 2)
  let c ← v3x2.Div v2py
  let vc2 ← c.Mul c
  let v2px ← p.X.Mul (NewSecp256k1FieldElement 2)
  let rx ← vc2.Minus v2px
  let vpxrx ← p.X.Minus rx
  let vcpxrx ← c.Mul vpxrx
  let ry ← vcpxrx.Minus p.Y
  pure ⟨rx, ry⟩

/-! ## Address derivation -/

/-- The external primitives of `GetAddress`, taken as parameters: `sha256.Sum256`, the digest
function of the RIPEMD-160 hasher and `b58.Encode`. -/
structure Primitives where
  sha256 : List Nat → List Nat
  ripemd160 : List Nat → List Nat
  b58Encode : List Nat → String

/-- The shared `hash.Hash` value `Ripemd160`: its state is the bytes written since the last
`Reset`. -/
structure Hasher where
  written : List Nat
deriving DecidableEq, Repr

/-- Method `h.Reset()`. -/
def Hasher.Reset (_h : Hasher) : Hasher :=
  ⟨[]⟩

/-- Method `h.Write(b)`. -/
def Hasher.Write (h : Hasher) (b : List Nat) : Hasher :=
  ⟨h.written ++ b⟩

/-- Method `h.Sum(b)`: appends the digest of everything written to `b`; the state is unchanged. -/
def Hasher.Sum (prim : Primitives) (h : Hasher) (b : List Nat) : List Nat :=
  b ++ prim.ripemd160 h.written

/-- Method `(p *Point) GetAddress(network)`, threading the state of the global hasher `Ripemd160`:
returns the address and the hasher state left behind. -/
def Point.GetAddress (prim : Primitives) (Ripemd160 : Hasher) (p : Point) (network : Nat) :
    String × Hasher :=
  let result := p.encodeUncompressedSecBytes
  -- Compute HASH160 (SHA256 + RIPEMD160)
  let v256result := prim.sha256 result
  let Ripemd160 := Ripemd160.Reset
  let Ripemd160 := Ripemd160.Write v256result
  let v160result := Ripemd160.Sum prim []
  -- Payload format: [1 byte (network) + 20 byte (key) + 4 byte (checksum)]
  let resultPayload := List.replicate (1 + 20 + 4) 0
  let resultPayload := resultPayload.set 0 (network % 256)
  let resultPayload :=
    resultPayload.take 1 ++ copy ((resultPayload.drop 1).take 21) v160result
      ++ resultPayload.drop 22
  -- Perform Checksum
  let firstShaChecksum := prim.sha256 (resultPayload.take 21)
  let doubleShaChecksum := prim.sha256 firstShaChecksum
  let resultPayload :=
    resultPayload.take 21 ++ copy (resultPayload.drop 21) (doubleShaChecksum.take 4)
  let str := prim.b58Encode resultPayload
  (str, Ripemd160)

/-! ## Specification-side definitions -/

/-- The 32-byte big-endian encoding of `n`, zero-padded on the left (as the specification
words it): byte `i` is digit `31 - i` of `n` in base 256. -/
def specBigEndian32 (n : Nat) : List Nat :=
  (List.range 32).map fun i => n / 256 ^ (31 - i) % 256

/-- A stand-in for the external primitives with digests of the right lengths, used to
instantiate statements about `GetAddress`. -/
def samplePrimitives : Primitives where
  sha256 := fun b => List.replicate 32 (b.sum % 256)
  ripemd160 := fun b => List.replicate 20 (b.length % 256)
  b58Encode := fun b => toString b

/-- The point returned by two successive calls of `MultiplyScalar` starting from `G` (see
`MultiplyScalar_twice_G`); it is used as an input of `MultiplyScalar`. -/
def doubledTwiceG : Point :=
  { X := ⟨103388573995635080359749164254216598308788835304023601477803095234286494993683, P⟩
    Y := ⟨78734948092074072410555668377823578303129767736939410369584297579653005861645, P⟩ }

/-- A second modulus instance, holding the modulus 7. -/
def F7 : BigIntRef :=
  ⟨2, 7⟩

/-! ## Basic facts about the `math/big` model -/

set_option maxRecDepth 100000

theorem P_val_pos : 0 < P.val := by decide

theorem P_val_ne_zero : P.val ≠ 0 := by decide

theorem P_toNat_cast : ((P.val.toNat : Nat) : Int) = P.val := by decide

theorem bigMod_P (x : Int) : bigMod x P.val = .ok (x % P.val) := by
  simp [bigMod, P_val_ne_zero]

theorem powModAux_spec (m : Nat) : ∀ (fuel b e acc : Nat), e ≤ fuel →
    powModAux m fuel b e acc % m = acc * b ^ e % m := by
  intro fuel
  induction fuel with
  | zero =>
    intro b e acc he
    have : e = 0 := by omega
    subst this
    simp [powModAux]
  | succ n ih =>
    intro b e acc he
    unfold powModAux
    by_cases h0 : e = 0
    · subst h0; simp
    · rw [if_neg h0, ih _ _ _ (by omega)]
      have hb : (b * b % m) ^ (e / 2) % m = (b * b) ^ (e / 2) % m := by
        rw [Nat.pow_mod, Nat.mod_mod, ← Nat.pow_mod]
      have hsq : (b * b) ^ (e / 2) = b ^ (2 * (e / 2)) := by
        rw [pow_mul, pow_two]
      by_cases hodd : e % 2 = 1
      · rw [if_pos hodd]
        have he2 : e = 2 * (e / 2) + 1 := by omega
        conv_rhs => rw [he2, pow_succ, ← mul_assoc, mul_right_comm, Nat.mul_mod]
        conv_lhs => rw [Nat.mul_mod, Nat.mod_mod, hb, hsq]
      · rw [if_neg hodd]
        have he2 : e = 2 * (e / 2) := by omega
        conv_rhs => rw [he2, Nat.mul_mod]
        conv_lhs => rw [Nat.mul_mod, hb, hsq]

/-- Square-and-multiply computes the modular power. -/
theorem powMod_eq (b e m : Nat) : powMod b e m = b ^ e % m := by
  unfold powMod
  rw [powModAux_spec m e (b % m) e 1 le_rfl, one_mul, ← Nat.pow_mod]

/-- The model of `Exp` is `x ** y mod m` with the non-negative residue. -/
theorem bigExp_eq (x : Int) (y m : Nat) (hm : 0 < m) :
    bigExp x y m = x ^ y % (m : Int) := by
  have hm0 : (m : Int) ≠ 0 := by exact_mod_cast hm.ne.symm
  have hnn : 0 ≤ x % (m : Int) := Int.emod_nonneg x hm0
  unfold bigExp
  rw [powMod_eq]
  simp only [Int.ofNat_eq_coe]
  push_cast
  rw [Int.toNat_of_nonneg hnn]
  exact (Int.ModEq.pow y (Int.mod_modEq x m))

/-! ## Primality of the field modulus

A Pratt certificate: each step is a Lucas test over the prime factorisation of `p - 1`, the
modular powers being evaluated by `powMod`. -/

/-- Lucas test over an explicit prime factorisation of `p - 1`, run with `powMod`. -/
theorem prime_of_lucas_certificate (p a : Nat) (qs : List Nat) (hp : 1 < p)
    (hprod : qs.prod = p - 1) (hprime : ∀ q ∈ qs, q.Prime)
    (h1 : powMod a (p - 1) p = 1) (h2 : ∀ q ∈ qs, powMod a ((p - 1) / q) p ≠ 1) :
    p.Prime := by
  have key : ∀ e : Nat, ((a : ZMod p) ^ e = 1 ↔ powMod a e p = 1) := by
    intro e
    rw [powMod_eq, ← Nat.cast_pow, ← Nat.cast_one, ZMod.natCast_eq_natCast_iff, Nat.ModEq,
      Nat.mod_eq_of_lt hp]
  refine lucas_primality p (a : ZMod p) ((key _).2 h1) ?_
  intro q hq hdvd
  rw [← hprod] at hdvd
  obtain ⟨r, hr, hqr⟩ := (Prime.dvd_prod_iff hq.prime).1 hdvd
  have : q = r := (Nat.prime_dvd_prime_iff_eq hq (hprime r hr)).1 hqr
  subst this
  intro h
  exact h2 q hr ((key _).1 h)

theorem prime_4423 :
    Nat.Prime 4423 := by
  refine prime_of_lucas_certificate _ 3
    [2, 3, 11, 67]
    (by norm_num) (by norm_num) ?_ (by decide) (by decide)
  intro q hq
  simp only [List.mem_cons, List.mem_singleton, List.not_mem_nil, or_false] at hq
  rcases hq with rfl | rfl | rfl | rfl
  · norm_num
  · norm_num
  · norm_num
  · norm_num

theorem prime_5323 :
    Nat.Prime 5323 := by
  refine prime_of_lucas_certificate _ 5
    [2, 3, 887]
    (by norm_num) (by norm_num) ?_ (by decide) (by decide)
  intro q hq
  simp only [List.mem_cons, List.mem_singleton, List.not_mem_nil, or_false] at hq
  rcases hq with rfl | rfl | rfl
  · norm_num
  · norm_num
  · norm_num

theorem prime_7723 :
    Nat.Prime 7723 := by
  refine prime_of_lucas_certificate _ 3
    [2, 3, 3, 3, 11, 13]
    (by norm_num) (by norm_num) ?_ (by decide) (by decide)
  intro q hq
  simp only [List.mem_cons, List.mem_singleton, List.not_mem_nil, or_false] at hq
  rcases hq with rfl | rfl | rfl | rfl | rfl | rfl
  · norm_num
  · norm_num
  · norm_num
  · norm_num
  · norm_num
  · norm_num

theorem prime_13441 :
    Nat.Prime 13441 := by
  refine prime_of_lucas_certificate _ 11
    [2, 2, 2, 2, 2, 2, 2, 3, 5, 7]
    (by norm_num) (by norm_num) ?_ (by decide) (by decide)
  intro q hq
  simp only [List.mem_cons, List.mem_singleton, List.not_mem_nil, or_false] at hq
  rcases hq with rfl | rfl | rfl | rfl | rfl | rfl | rfl | rfl | rfl | rfl
  · norm_num
  · norm_num
  · norm_num
  · norm_num
  · norm_num
  · norm_num
  · norm_num
  · norm_num
  · norm_num
  · norm_num

theorem prime_20113 :
    Nat.Prime 20113 := by
  refine prime_of_lucas_certificate _ 10
    [2, 2, 2, 2, 3, 419]
    (by norm_num) (by norm_num) ?_ (by decide) (by decide)
  intro q hq
  simp only [List.mem_cons, List.mem_singleton, List.not_mem_nil, or_false] at hq
  rcases hq with rfl | rfl | rfl | rfl | rfl | rfl
  · norm_num
  · norm_num
  · norm_num
  · norm_num
  · norm_num
  · norm_num

theorem prime_24809 :
    Nat.Prime 24809 := by
  refine prime_of_lucas_certificate _ 6
    [2, 2, 2, 7, 443]
    (by norm_num) (by norm_num) ?_ (by decide) (by decide)
  intro q hq
  simp only [List.mem_cons, List.mem_singleton, List.not_mem_nil, or_false] at hq
  rcases hq with rfl | rfl | rfl | rfl | rfl
  · norm_num
  · norm_num
  · norm_num
  · norm_num
  · norm_num

theorem prime_41201 :
    Nat.Prime 41201 := by
  refine prime_of_lucas_certificate _ 3
    [2, 2, 2, 2, 5, 5, 103]
    (by norm_num) (by norm_num) ?_ (by decide) (by decide)
  intro q hq
  simp only [List.mem_cons, List.mem_singleton, List.not_mem_nil, or_false] at hq
  rcases hq with rfl | rfl | rfl | rfl | rfl | rfl | rfl
  · norm_num
  · norm_num
  · norm_num
  · norm_num
  · norm_num
  · norm_num
  · norm_num

theorem prime_96557 :
    Nat.Prime 96557 := by
  refine prime_of_lucas_certificate _ 2
    [2, 2, 101, 239]
    (by norm_num) (by norm_num) ?_ (by decide) (by decide)
  intro q hq
  simp only [List.mem_cons, List.mem_singleton, List.not_mem_nil, or_false] at hq
  rcases hq with rfl | rfl | rfl | rfl
  · norm_num
  · norm_num
  · norm_num
  · norm_num

theorem prime_1206781 :
    Nat.Prime 1206781 := by
  refine prime_of_lucas_certificate _ 10
    [2, 2, 3, 5, 20113]
    (by norm_num) (by norm_num) ?_ (by decide) (by decide)
  intro q hq
  simp only [List.mem_cons, List.mem_singleton, List.not_mem_nil, or_false] at hq
  rcases hq with rfl | rfl | rfl | rfl | rfl
  · norm_num
  · norm_num
  · norm_num
  · norm_num
  · exact prime_20113

theorem prime_7240687 :
    Nat.Prime 7240687 := by
  refine prime_of_lucas_certificate _ 3
    [2, 3, 1206781]
    (by norm_num) (by norm_num) ?_ (by decide) (by decide)
  intro q hq
  simp only [List.mem_cons, List.mem_singleton, List.not_mem_nil, or_false] at hq
  rcases hq with rfl | rfl | rfl
  · norm_num
  · norm_num
  · exact prime_1206781

theorem prime_13331831 :
    Nat.Prime 13331831 := by
  refine prime_of_lucas_certificate _ 13
    [2, 5, 971, 1373]
    (by norm_num) (by norm_num) ?_ (by decide) (by decide)
  intro q hq
  simp only [List.mem_cons, List.mem_singleton, List.not_mem_nil, or_false] at hq
  rcases hq with rfl | rfl | rfl | rfl
  · norm_num
  · norm_num
  · norm_num
  · norm_num

theorem prime_107590001 :
    Nat.Prime 107590001 := by
  refine prime_of_lucas_certificate _ 3
    [2, 2, 2, 2, 5, 5, 5, 5, 7, 29, 53]
    (by norm_num) (by norm_num) ?_ (by decide) (by decide)
  intro q hq
  simp only [List.mem_cons, List.mem_singleton, List.not_mem_nil, or_false] at hq
  rcases hq with rfl | rfl | rfl | rfl | rfl | rfl | rfl | rfl | rfl | rfl | rfl
  · norm_num
  · norm_num
  · norm_num
  · norm_num
  · norm_num
  · norm_num
  · norm_num
  · norm_num
  · norm_num
  · norm_num
  · norm_num

theorem pratt_18_digits :
    Nat.Prime 173378833005251801 := by
  refine prime_of_lucas_certificate _ 6
    [2, 2, 2, 5, 5, 2621, 24809, 13331831]
    (by norm_num) (by norm_num) ?_ (by decide) (by decide)
  intro q hq
  simp only [List.mem_cons, List.mem_singleton, List.not_mem_nil, or_false] at hq
  rcases hq with rfl | rfl | rfl | rfl | rfl | rfl | rfl | rfl
  · norm_num
  · norm_num
  · norm_num
  · norm_num
  · norm_num
  · norm_num
  · exact prime_24809
  · exact prime_13331831

theorem pratt_23_digits :
    Nat.Prime 22149492674086928081353 := by
  refine prime_of_lucas_certificate _ 5
    [2, 2, 2, 3, 5323, 173378833005251801]
    (by norm_num) (by norm_num) ?_ (by decide) (by decide)
  intro q hq
  simp only [List.mem_cons, List.mem_singleton, List.not_mem_nil, or_false] at hq
  rcases hq with rfl | rfl | rfl | rfl | rfl | rfl
  · norm_num
  · norm_num
  · norm_num
  · norm_num
  · exact prime_5323
  · exact pratt_18_digits

theorem pratt_24_digits :
    Nat.Prime 132896956044521568488119 := by
  refine prime_of_lucas_certificate _ 6
    [2, 3, 22149492674086928081353]
    (by norm_num) (by norm_num) ?_ (by decide) (by decide)
  intro q hq
  simp only [List.mem_cons, List.mem_singleton, List.not_mem_nil, or_false] at hq
  rcases hq with rfl | rfl | rfl
  · norm_num
  · norm_num
  · exact pratt_23_digits

theorem pratt_39_digits :
    Nat.Prime 255515944373312847190720520512484175977 := by
  refine prime_of_lucas_certificate _ 3
    [2, 2, 2, 7, 7, 11, 1627, 2657, 4423, 41201, 96557, 7240687, 107590001]
    (by norm_num) (by norm_num) ?_ (by decide) (by decide)
  intro q hq
  simp only [List.mem_cons, List.mem_singleton, List.not_mem_nil, or_false] at hq
  rcases hq with rfl | rfl | rfl | rfl | rfl | rfl | rfl | rfl | rfl | rfl | rfl | rfl | rfl
  · norm_num
  · norm_num
  · norm_num
  · norm_num
  · norm_num
  · norm_num
  · norm_num
  · norm_num
  · exact prime_4423
  · exact prime_41201
  · exact prime_96557
  · exact prime_7240687
  · exact prime_107590001

theorem pratt_72_digits :
    Nat.Prime 205115282021455665897114700593932402728804164701536103180137503955397371 := by
  refine prime_of_lucas_certificate _ 10
    [2, 3, 5, 29, 29, 31, 7723, 132896956044521568488119, 255515944373312847190720520512484175977]
    (by norm_num) (by norm_num) ?_ (by decide) (by decide)
  intro q hq
  simp only [List.mem_cons, List.mem_singleton, List.not_mem_nil, or_false] at hq
  rcases hq with rfl | rfl | rfl | rfl | rfl | rfl | rfl | rfl | rfl
  · norm_num
  · norm_num
  · norm_num
  · norm_num
  · norm_num
  · norm_num
  · exact prime_7723
  · exact pratt_24_digits
  · exact pratt_39_digits

theorem secp256k1_prime :
    Nat.Prime 115792089237316195423570985008687907853269984665640564039457584007908834671663 := by
  refine prime_of_lucas_certificate _ 3
    [2, 3, 7, 13441, 205115282021455665897114700593932402728804164701536103180137503955397371]
    (by norm_num) (by norm_num) ?_ (by decide) (by decide)
  intro q hq
  simp only [List.mem_cons, List.mem_singleton, List.not_mem_nil, or_false] at hq
  rcases hq with rfl | rfl | rfl | rfl | rfl
  · norm_num
  · norm_num
  · norm_num
  · exact prime_13441
  · exact pratt_72_digits

/-- The modulus `P` of `init` is prime. -/
theorem P_prime : Nat.Prime P.val.toNat := secp256k1_prime

/-- Fermat inverse in the field `P`: `b * b^(P-2) mod P = 1` for `0 < b < P`. -/
theorem mul_fermat_inverse (b : Int) (h0 : 0 < b) (hlt : b < P.val) :
    b * (b ^ (P.val - 2).toNat % P.val) % P.val = 1 := by
  have hcop : IsCoprime b (P.val.toNat : Int) := by
    rw [Int.isCoprime_iff_gcd_eq_one, Int.gcd_eq_natAbs, Int.natAbs_ofNat]
    refine Nat.Coprime.symm ((Nat.Prime.coprime_iff_not_dvd P_prime).2 ?_)
    intro hdvd
    have hle := Nat.le_of_dvd (by omega) hdvd
    have : (P.val.toNat : Int) ≤ (b.natAbs : Int) := by exact_mod_cast hle
    rw [P_toNat_cast, Int.natAbs_of_nonneg h0.le] at this
    omega
  have hf := Int.ModEq.pow_card_sub_one_eq_one P_prime hcop
  rw [P_toNat_cast] at hf
  have hexp : P.val.toNat - 1 = (P.val - 2).toNat + 1 := by decide
  rw [hexp, pow_succ] at hf
  have h1 : (1 : Int) % P.val = 1 := by decide
  rw [Int.mul_emod, Int.emod_emod_of_dvd _ (dvd_refl _), ← Int.mul_emod, mul_comm, hf.eq, h1]

/-! ## Field operations on elements of the instance `P` -/

theorem Mul_of_field {a b : FieldElement} (ha : a.Field = P) (hb : b.Field = P) :
    a.Mul b = .ok ⟨a.Value * b.Value % P.val, P⟩ := by
  simp [FieldElement.Mul, ha, hb, bigMod_P, bind, Except.bind, pure, Except.pure]

theorem Add_of_field {a b : FieldElement} (ha : a.Field = P) (hb : b.Field = P) :
    a.Add b = .ok ⟨(a.Value + b.Value) % P.val, P⟩ := by
  simp [FieldElement.Add, ha, hb, bigMod_P, bind, Except.bind, pure, Except.pure]

theorem Equal_of_field {a b : FieldElement} (ha : a.Field = P) (hb : b.Field = P) :
    a.Equal b = .ok (decide (a.Value = b.Value)) := by
  simp [FieldElement.Equal, ha, hb, pure, Except.pure]

/-- The two branches of `Minus` on elements of the instance `P`. -/
theorem Minus_of_field {a b : FieldElement} (ha : a.Field = P) (hb : b.Field = P) :
    a.Minus b = .ok ⟨if IsUint64 (a.Value - b.Value) then (a.Value - b.Value) % P.val
      else P.val - |a.Value - b.Value| % P.val, P⟩ := by
  unfold FieldElement.Minus
  by_cases h : IsUint64 (a.Value - b.Value) = true <;>
    simp [ha, hb, bigMod_P, bind, Except.bind, pure, Except.pure, h]

/-- The result of `Div` on elements of the instance `P`: `a * (b^(P-2) mod P) mod P`. -/
theorem Div_of_field {a b : FieldElement} (ha : a.Field = P) (hb : b.Field = P) :
    a.Div b = .ok ⟨a.Value * (b.Value ^ (P.val - 2).toNat % P.val) % P.val, P⟩ := by
  unfold FieldElement.Div
  rw [if_neg (by simp [ha, hb])]
  simp only []
  rw [Mul_of_field ha rfl, bigExp_eq _ _ _ (by decide), P_toNat_cast]

/-! ## Serialization facts -/

theorem Text10_emod_two_ne (y : Int) : Text10 (y % 2) ≠ "2" := by
  rcases Int.emod_two_eq_zero_or_one y with h | h <;> rw [h] <;> decide

/-- The models of `Bytes` and `copy` on small inputs: no leading zero byte, the empty slice
for zero, the absolute value for a negative number; `copy` truncates a longer source and
leaves the tail of the destination under a shorter one. -/
theorem Bytes_copy_examples :
    Bytes 0 = [] ∧ Bytes 255 = [255] ∧ Bytes 256 = [1, 0] ∧ Bytes (-258) = [1, 2] ∧
    copy [0, 0, 0] [7] = [7, 0, 0] ∧ copy [0, 0] [7, 8, 9] = [7, 8] := by
  decide

theorem copy_length (dst src : List Nat) : (copy dst src).length = dst.length := by
  simp [copy]; omega

/-- The serialization as the code produces it: the byte 3, then the bytes of `Y` copied
from the left into 32 zero bytes. -/
theorem encodeUncompressedSecBytes_eq (p : Point) :
    p.encodeUncompressedSecBytes = 3 :: copy (List.replicate 32 0) (Bytes p.Y.Value) := by
  unfold Point.encodeUncompressedSecBytes
  simp only [decide_eq_false (Text10_emod_two_ne p.Y.Value)]
  rfl

theorem encodeUncompressedSecBytes_length (p : Point) :
    p.encodeUncompressedSecBytes.length = 33 := by
  rw [encodeUncompressedSecBytes_eq, List.length_cons, copy_length, List.length_replicate]

/-! ## Claims C1 to C10 -/

/-- Claim C1, evaluated at the failing input: `Minus` on the valid elements `2^64` and `0`
returns `P - 2^64`, which is not the residue `(2^64 - 0) mod P = 2^64`: a non-negative
difference that does not fit a `uint64` is negated. -/
theorem Minus_large_difference_is_negated :
    FieldElement.Valid ⟨2 ^ 64, P⟩ ∧ FieldElement.Valid ⟨0, P⟩ ∧
    FieldElement.Minus ⟨2 ^ 64, P⟩ ⟨0, P⟩ = .ok ⟨P.val - 2 ^ 64, P⟩ ∧
    P.val - 2 ^ 64 ≠ (2 ^ 64 - 0) % P.val := by
  decide

/-- Claim C2, evaluated at the failing input: the generator `G` has an even `Y`, yet byte 0
of its serialization is `0x03`: the parity test compares the decimal text of `Y mod 2`
with `"2"`, which never matches. -/
theorem encodeUncompressedSecBytes_G_first_byte :
    G.Y.Value % 2 = 0 ∧ G.encodeUncompressedSecBytes[0]? = some 3 := by
  decide

/-- Claim C3, evaluated at the failing input: bytes 1..32 of the serialization of `G` are
the big-endian bytes of `G.Y`, not those of `G.X`; and for the point `(1, 1)` they are
`01 00 … 00` (left-aligned) where the 32-byte encoding of `X = 1` is `00 … 00 01`. -/
theorem encodeUncompressedSecBytes_tail_is_Y_left_aligned :
    G.encodeUncompressedSecBytes.drop 1 = specBigEndian32 G.Y.Value.toNat ∧
    G.encodeUncompressedSecBytes.drop 1 ≠ specBigEndian32 G.X.Value.toNat ∧
    (Point.mk ⟨1, P⟩ ⟨1, P⟩).encodeUncompressedSecBytes.drop 1 = 1 :: List.replicate 31 0 ∧
    specBigEndian32 1 = List.replicate 31 0 ++ [1] := by
  decide


/-- The Fermat power of zero is zero. -/
theorem zero_pow_P_sub_two : (0 : Int) ^ (P.val - 2).toNat % P.val = 0 := by
  rw [zero_pow (by decide)]; rfl

/-- Claim C4, refuted as stated: dividing the valid element `1` by the valid element `0`
does not fail; `Div` returns the element of value `0`. -/
theorem Div_by_zero_returns_zero :
    FieldElement.Valid ⟨1, P⟩ ∧ (⟨0, P⟩ : FieldElement).Field = P ∧
    FieldElement.Div ⟨1, P⟩ ⟨0, P⟩ = .ok ⟨0, P⟩ ∧
    ¬ ∃ e, FieldElement.Div ⟨1, P⟩ ⟨0, P⟩ = .error e := by
  refine ⟨by decide, rfl, by decide, ?_⟩
  rintro ⟨e, he⟩
  rw [show FieldElement.Div ⟨1, P⟩ ⟨0, P⟩ = .ok ⟨0, P⟩ by decide] at he
  exact Except.noConfusion he

/-- Claim C4, amended: for every valid element `a` and every element `b` of the same field
with `b.Value = 0`, `Div a b` returns the element of value `0` in the field `P`; there is no
division-by-zero failure. -/
theorem Div_zero_divisor (a b : FieldElement) (ha : a.Valid) (hb : b.Field = P)
    (hb0 : b.Value = 0) : a.Div b = .ok ⟨0, P⟩ := by
  rw [Div_of_field ha.1 hb, hb0, zero_pow_P_sub_two, mul_zero]
  rfl

/-- Instance of the amended claim C4 at `a = 5`, `b = 0`. -/
theorem Div_zero_divisor_witness :
    FieldElement.Div ⟨5, P⟩ ⟨0, P⟩ = .ok ⟨0, P⟩ :=
  Div_zero_divisor ⟨5, P⟩ ⟨0, P⟩ (by decide) rfl rfl

/-- Claim C9: when the `Field` references of `a` and `b` are different modulus instances,
each of `Add`, `Mul`, `Minus`, `Div` and `Equal` aborts with the panic
"Fields are different" and returns no result. -/
theorem binary_operations_reject_field_mismatch (a b : FieldElement)
    (h : a.Field.addr ≠ b.Field.addr) :
    a.Add b = .error .fieldsAreDifferent ∧ a.Mul b = .error .fieldsAreDifferent ∧
    a.Minus b = .error .fieldsAreDifferent ∧ a.Div b = .error .fieldsAreDifferent ∧
    a.Equal b = .error .fieldsAreDifferent := by
  simp [FieldElement.Add, FieldElement.Mul, FieldElement.Minus, FieldElement.Div,
    FieldElement.Equal, h]

/-- Instance of claim C9 at the element `1` of the instance `P` and the element `1` of a
second modulus instance holding the same prime. -/
theorem binary_operations_reject_field_mismatch_witness :
    (P.addr ≠ (BigIntRef.mk 2 P.val).addr) ∧
    (FieldElement.Add ⟨1, P⟩ ⟨1, ⟨2, P.val⟩⟩ = .error .fieldsAreDifferent ∧
     FieldElement.Mul ⟨1, P⟩ ⟨1, ⟨2, P.val⟩⟩ = .error .fieldsAreDifferent ∧
     FieldElement.Minus ⟨1, P⟩ ⟨1, ⟨2, P.val⟩⟩ = .error .fieldsAreDifferent ∧
     FieldElement.Div ⟨1, P⟩ ⟨1, ⟨2, P.val⟩⟩ = .error .fieldsAreDifferent ∧
     FieldElement.Equal ⟨1, P⟩ ⟨1, ⟨2, P.val⟩⟩ = .error .fieldsAreDifferent) :=
  ⟨by decide, binary_operations_reject_field_mismatch ⟨1, P⟩ ⟨1, ⟨2, P.val⟩⟩ (by decide)⟩

theorem IsOnSecpCurve_of_field {p : Point} (hx : p.X.Field = P) (hy : p.Y.Field = P) :
    p.IsOnSecpCurve = .ok (decide ((p.X.Value * p.X.Value % P.val * p.X.Value % P.val + 7)
      % P.val = p.Y.Value * p.Y.Value % P.val)) := by
  unfold Point.IsOnSecpCurve
  rw [Mul_of_field hy hy, Mul_of_field hx hx]
  simp only [bind, Except.bind]
  rw [Mul_of_field rfl hx]
  simp only [bind, Except.bind]
  rw [Add_of_field rfl rfl]
  simp only [bind, Except.bind]
  rw [Equal_of_field rfl rfl]
  rfl

/-- Claim C10: for a point with valid secp256k1 coordinates, `IsOnSecpCurve` returns, and it
returns true exactly when `Y^2 mod P = (X^3 + 7) mod P`. -/
theorem IsOnSecpCurve_iff_curve_equation (p : Point) (hx : p.X.Valid) (hy : p.Y.Valid) :
    p.IsOnSecpCurve =
      .ok (decide (p.Y.Value ^ 2 % P.val = (p.X.Value ^ 3 + 7) % P.val)) := by
  rw [IsOnSecpCurve_of_field hx.1 hy.1]
  congr 1
  have h1 : (p.X.Value * p.X.Value % P.val * p.X.Value % P.val + 7) % P.val
      = (p.X.Value ^ 3 + 7) % P.val := by
    rw [Int.add_emod, Int.emod_emod_of_dvd _ (dvd_refl _), Int.mul_emod,
      Int.emod_emod_of_dvd _ (dvd_refl _), ← Int.mul_emod, ← Int.add_emod]
    ring_nf
  have h2 : p.Y.Value * p.Y.Value = p.Y.Value ^ 2 := by ring
  rw [h1, h2]
  exact decide_eq_decide.2 eq_comm

/-- Instance of claim C10 at the generator `G`. -/
theorem IsOnSecpCurve_iff_curve_equation_witness :
    G.IsOnSecpCurve = .ok (decide (G.Y.Value ^ 2 % P.val = (G.X.Value ^ 3 + 7) % P.val)) :=
  IsOnSecpCurve_iff_curve_equation G (by decide) (by decide)


theorem NewSecp256k1FieldElement_two : NewSecp256k1FieldElement 2 = ⟨2, P⟩ := by decide
theorem NewSecp256k1FieldElement_three : NewSecp256k1FieldElement 3 = ⟨3, P⟩ := by decide

/-- The doubling code on coordinates of the instance `P`, with every step spelled out. -/
theorem MultiplyScalar_of_field {p : Point} (hx : p.X.Field = P) (hy : p.Y.Field = P) :
    p.MultiplyScalar =
      (do
        let c : FieldElement :=
          ⟨p.X.Value * p.X.Value % P.val * 3 % P.val
            * ((p.Y.Value * 2 % P.val) ^ (P.val - 2).toNat % P.val) % P.val, P⟩
        let rx ← FieldElement.Minus ⟨c.Value * c.Value % P.val, P⟩ ⟨p.X.Value * 2 % P.val, P⟩
        let vpxrx ← p.X.Minus rx
        let vcpxrx ← c.Mul vpxrx
        let ry ← vcpxrx.Minus p.Y
        pure ⟨rx, ry⟩) := by
  unfold Point.MultiplyScalar
  rw [Mul_of_field hx hx, NewSecp256k1FieldElement_two, NewSecp256k1FieldElement_three]
  simp only [bind, Except.bind]
  rw [Mul_of_field rfl rfl, Mul_of_field hy rfl]
  simp only []
  rw [Div_of_field rfl rfl]
  simp only []
  rw [Mul_of_field rfl rfl, Mul_of_field hx rfl]

/-- Claim C7, refuted as stated: doubling the point `(1, 0)`, whose coordinates are valid,
does not fail; it returns the point `(P - 2, 0)`. -/
theorem MultiplyScalar_Y_zero_returns :
    FieldElement.Valid ⟨1, P⟩ ∧ FieldElement.Valid ⟨0, P⟩ ∧
    Point.MultiplyScalar ⟨⟨1, P⟩, ⟨0, P⟩⟩ = .ok ⟨⟨P.val - 2, P⟩, ⟨0, P⟩⟩ := by
  decide

/-- Claim C7, amended: for every point with valid coordinates and `Y.Value = 0`,
`MultiplyScalar` does not fail: it returns the point `(X', 0)` with
`X'.Value = (-2 * X.Value) mod P`. -/
theorem MultiplyScalar_of_Y_zero (p : Point) (hx : p.X.Valid) (hy : p.Y.Valid)
    (hy0 : p.Y.Value = 0) :
    p.MultiplyScalar = .ok ⟨⟨(-2 * p.X.Value) % P.val, P⟩, ⟨0, P⟩⟩ := by
  obtain ⟨hxf, hx0, hxlt⟩ := hx
  rw [MultiplyScalar_of_field hxf hy.1, hy0]
  have hc : p.X.Value * p.X.Value % P.val * 3 % P.val
      * (((0 : Int) * 2 % P.val) ^ (P.val - 2).toNat % P.val) % P.val = 0 := by
    rw [show ((0 : Int) * 2 % P.val) = 0 by decide, zero_pow_P_sub_two, mul_zero]; rfl
  simp only [hc]
  have hP := P_val_pos
  have hrx : FieldElement.Minus ⟨(0 : Int) * 0 % P.val, P⟩ ⟨p.X.Value * 2 % P.val, P⟩
      = .ok ⟨(-2 * p.X.Value) % P.val, P⟩ := by
    rw [Minus_of_field rfl rfl]
    simp only [show ((0 : Int) * 0 % P.val) = 0 by decide, zero_sub]
    have hm0 : 0 ≤ p.X.Value * 2 % P.val := Int.emod_nonneg _ P_val_ne_zero
    have hmlt : p.X.Value * 2 % P.val < P.val := Int.emod_lt_of_pos _ hP
    have hneg : (-2 * p.X.Value) % P.val = (-(p.X.Value * 2 % P.val)) % P.val := by
      rw [show -2 * p.X.Value = -(p.X.Value * 2) by ring]
      exact (Int.ModEq.neg (Int.mod_modEq _ _)).symm
    rw [hneg]
    congr 2
    by_cases hz : p.X.Value * 2 % P.val = 0
    · rw [hz]; decide
    · have hlt0 : ¬ (0 ≤ -(p.X.Value * 2 % P.val)) := by omega
      have hu : IsUint64 (-(p.X.Value * 2 % P.val)) = false := by
        simp [IsUint64, hlt0]
      rw [hu]
      simp only [Bool.false_eq_true, if_false, abs_neg, abs_of_nonneg hm0]
      rw [Int.emod_emod_of_dvd _ (dvd_refl _)]
      have : (-(p.X.Value * 2 % P.val)) % P.val = P.val - p.X.Value * 2 % P.val := by
        rw [← Int.add_emod_self, Int.emod_eq_of_lt (by omega) (by omega)]
        ring
      rw [this]
  rw [hrx]
  simp only [bind, Except.bind]
  rw [Minus_of_field hxf rfl]
  simp only []
  rw [Mul_of_field rfl rfl]
  simp only [zero_mul]
  rw [Minus_of_field rfl hy.1, hy0]
  rfl

/-- Instance of the amended claim C7 at the point `(7, 0)`. -/
theorem MultiplyScalar_of_Y_zero_witness :
    Point.MultiplyScalar ⟨⟨7, P⟩, ⟨0, P⟩⟩ = .ok ⟨⟨(-2 * 7) % P.val, P⟩, ⟨0, P⟩⟩ :=
  MultiplyScalar_of_Y_zero ⟨⟨7, P⟩, ⟨0, P⟩⟩ (by decide) (by decide) rfl


/-! ## Division round trip and the doubling formula -/

/-- Claim C5: for valid elements `a` and `b` of the secp256k1 field with `b.Value ≠ 0`,
`Mul(Div(a, b), b)` returns an element of value `a.Value`; and with `one` the element of
value 1, `Mul(b, Div(one, b))` returns an element of value 1. -/
theorem Div_then_Mul_round_trip (a b : FieldElement) (ha : a.Valid) (hb : b.Valid)
    (hb0 : b.Value ≠ 0) :
    (a.Div b >>= fun d => d.Mul b) = .ok ⟨a.Value, P⟩ ∧
    (FieldElement.Div ⟨1, P⟩ b >>= fun i => b.Mul i) = .ok ⟨1, P⟩ := by
  obtain ⟨haf, ha0, halt⟩ := ha
  obtain ⟨hbf, hbnn, hblt⟩ := hb
  have hinv := mul_fermat_inverse b.Value (lt_of_le_of_ne hbnn (Ne.symm hb0)) hblt
  have hinv' : b.Value * (b.Value ^ (P.val - 2).toNat % P.val) ≡ 1 [ZMOD P.val] := by
    rw [Int.ModEq, hinv]; decide
  constructor
  · rw [Div_of_field haf hbf]
    simp only [bind, Except.bind]
    rw [Mul_of_field rfl hbf]
    have h1 : a.Value * (b.Value ^ (P.val - 2).toNat % P.val) % P.val * b.Value
        ≡ a.Value * (b.Value ^ (P.val - 2).toNat % P.val) * b.Value [ZMOD P.val] :=
      Int.ModEq.mul_right _ (Int.mod_modEq _ _)
    have h2 : a.Value * (b.Value ^ (P.val - 2).toNat % P.val) * b.Value
        = a.Value * (b.Value * (b.Value ^ (P.val - 2).toNat % P.val)) := by ring
    have h3 : a.Value * (b.Value * (b.Value ^ (P.val - 2).toNat % P.val))
        ≡ a.Value * 1 [ZMOD P.val] := Int.ModEq.mul_left _ hinv'
    rw [h2] at h1
    have h4 := (h1.trans h3).eq
    rw [mul_one, Int.emod_eq_of_lt ha0 halt] at h4
    simp only [h4]
  · rw [Div_of_field rfl hbf]
    simp only [bind, Except.bind]
    rw [Mul_of_field hbf rfl]
    simp only [one_mul]
    rw [Int.emod_emod_of_dvd _ (dvd_refl _), hinv]

/-- Instance of claim C5 at `a = 5`, `b = 3`. -/
theorem Div_then_Mul_round_trip_witness :
    (FieldElement.Div ⟨5, P⟩ ⟨3, P⟩ >>= fun d => d.Mul ⟨3, P⟩) = .ok ⟨5, P⟩ ∧
    (FieldElement.Div ⟨1, P⟩ ⟨3, P⟩ >>= fun i => FieldElement.Mul ⟨3, P⟩ i) = .ok ⟨1, P⟩ :=
  Div_then_Mul_round_trip ⟨5, P⟩ ⟨3, P⟩ (by decide) (by decide) (by decide)

/-- The slope of the doubling formula at the point `(2, 1)` is `12 / 2 = 6`. -/
theorem slope_at_two_one : (3 * 2 ^ 2) * (2 * 1) ^ (P.val - 2).toNat % P.val = 6 := by
  have hinv := mul_fermat_inverse 2 (by decide) (by decide)
  have h1 : (2 : Int) * (2 ^ (P.val - 2).toNat % P.val) ≡ 1 [ZMOD P.val] := by
    rw [Int.ModEq, hinv]; decide
  have h2 : (2 : Int) * 2 ^ (P.val - 2).toNat ≡ 1 [ZMOD P.val] :=
    (Int.ModEq.mul_left 2 (Int.mod_modEq _ _)).symm.trans h1
  have h3 : (3 * 2 ^ 2) * (2 * 1 : Int) ^ (P.val - 2).toNat
      = 6 * (2 * 2 ^ (P.val - 2).toNat) := by
    rw [mul_one]; ring
  rw [h3, (Int.ModEq.mul_left 6 h2).eq]
  decide

/-- The slope of the doubling formula at the generator `G`. -/
theorem slope_at_G :
    (3 * G.X.Value ^ 2) * (2 * G.Y.Value) ^ (P.val - 2).toNat % P.val = 91914383230618135761690975197207778399550061809281766160147273830617914855857 := by
  have h := bigExp_eq (2 * G.Y.Value) (P.val - 2).toNat P.val.toNat (by decide)
  rw [P_toNat_cast] at h
  rw [Int.mul_emod, ← h]
  decide

/-- Claim C6, evaluated at the failing input: for the point `(2, 1)`, whose coordinates are
valid and whose `Y` is not zero, the slope is `c = 6` and the doubling formula gives
`X' = 32`, `Y' = (6 * (2 - 32) - 1) mod P = P - 181`; `MultiplyScalar` returns `(32, 181)`.
For the generator `G`, with slope `c`, the formula gives `Y' = (c * (X - X') - Y) mod P` and
`MultiplyScalar` returns `P` minus that value. -/
theorem MultiplyScalar_departs_from_doubling_formula :
    (FieldElement.Valid ⟨2, P⟩ ∧ FieldElement.Valid ⟨1, P⟩ ∧
      (3 * 2 ^ 2) * (2 * 1) ^ (P.val - 2).toNat % P.val = 6 ∧
      (6 ^ 2 - 2 * 2) % P.val = 32 ∧
      (6 * (2 - 32) - 1) % P.val = P.val - 181 ∧
      Point.MultiplyScalar ⟨⟨2, P⟩, ⟨1, P⟩⟩ = .ok ⟨⟨32, P⟩, ⟨181, P⟩⟩) ∧
    (G.X.Valid ∧ G.Y.Valid ∧
      (3 * G.X.Value ^ 2) * (2 * G.Y.Value) ^ (P.val - 2).toNat % P.val
        = 91914383230618135761690975197207778399550061809281766160147273830617914855857 ∧
      (91914383230618135761690975197207778399550061809281766160147273830617914855857 ^ 2
          - 2 * G.X.Value) % P.val
        = 89565891926547004231252920425935692360644145829622209833684329913297188986597 ∧
      (91914383230618135761690975197207778399550061809281766160147273830617914855857
          * (G.X.Value
            - 89565891926547004231252920425935692360644145829622209833684329913297188986597)
          - G.Y.Value) % P.val
        = 12158399299693830322967808612713398636155367887041628176798871954788371653930 ∧
      G.MultiplyScalar = .ok
        ⟨⟨89565891926547004231252920425935692360644145829622209833684329913297188986597, P⟩,
         ⟨P.val - 12158399299693830322967808612713398636155367887041628176798871954788371653930,
          P⟩⟩) :=
  ⟨⟨by decide, by decide, slope_at_two_one, by decide, by decide, by decide⟩,
   ⟨by decide, by decide, slope_at_G, by decide, by decide, by decide⟩⟩


/-! ## Address derivation -/

/-- The payload `GetAddress` encodes, when RIPEMD-160 digests have 20 bytes and `n` is a
byte: the network byte, the HASH160 of the serialization, the 4 checksum bytes. -/
theorem GetAddress_eq (prim : Primitives) (h : Hasher) (p : Point) (n : Nat)
    (hrip : ∀ b, (prim.ripemd160 b).length = 20) (hn : n < 256) :
    (p.GetAddress prim h n).1 =
      prim.b58Encode
        ((n :: prim.ripemd160 (prim.sha256 p.encodeUncompressedSecBytes)) ++
          copy (List.replicate 4 0)
            ((prim.sha256 (prim.sha256
              (n :: prim.ripemd160 (prim.sha256 p.encodeUncompressedSecBytes)))).take 4)) := by
  unfold Point.GetAddress
  simp only [Hasher.Reset, Hasher.Write, Hasher.Sum, List.nil_append]
  have hd := hrip (prim.sha256 p.encodeUncompressedSecBytes)
  generalize prim.ripemd160 (prim.sha256 p.encodeUncompressedSecBytes) = d at *
  have h0 : (List.replicate (1 + 20 + 4) 0).set 0 (n % 256) = n :: List.replicate 24 0 := by
    rw [Nat.mod_eq_of_lt hn]; rfl
  have hcopy : copy (List.take 21 (List.drop 1 (n :: List.replicate 24 0))) d = d ++ [0] := by
    unfold copy
    simp only [List.drop_succ_cons, List.drop_zero, List.take_replicate, List.length_replicate]
    rw [List.take_of_length_le (by omega), hd]
    rfl
  have hstep : List.take 1 (n :: List.replicate 24 0) ++ (d ++ [0])
      ++ List.drop 22 (n :: List.replicate 24 0) = (n :: d) ++ List.replicate 4 0 := by
    simp [List.replicate]
  have hlen : (n :: d).length = 21 := by simp [hd]
  rw [h0, hcopy, hstep, List.take_left' hlen, List.drop_left' hlen]

/-- Claim C8: with SHA-256 digests of 32 bytes, RIPEMD-160 digests of 20 bytes and a network
byte `n`, `GetAddress` returns the Base58 text of a 25-byte payload whose byte 0 is `n`,
whose bytes 1..20 are `RIPEMD160(SHA256(sec))` for the 33-byte serialization `sec` of the
point, and whose bytes 21..24 are the first 4 bytes of `SHA256(SHA256(payload[0..20]))`;
the text is the same for every prior state of the shared hasher. -/
theorem GetAddress_is_base58_of_payload (prim : Primitives) (p : Point) (n : Nat)
    (hsha : ∀ b, (prim.sha256 b).length = 32) (hrip : ∀ b, (prim.ripemd160 b).length = 20)
    (hn : n < 256) :
    ∃ payload : List Nat,
      payload.length = 25 ∧ payload[0]? = some n ∧
      p.encodeUncompressedSecBytes.length = 33 ∧
      (payload.drop 1).take 20 = prim.ripemd160 (prim.sha256 p.encodeUncompressedSecBytes) ∧
      payload.drop 21 = (prim.sha256 (prim.sha256 (payload.take 21))).take 4 ∧
      ∀ h : Hasher, (p.GetAddress prim h n).1 = prim.b58Encode payload := by
  have hd := hrip (prim.sha256 p.encodeUncompressedSecBytes)
  have hlen : (n :: prim.ripemd160 (prim.sha256 p.encodeUncompressedSecBytes)).length = 21 := by
    simp [hd]
  have hck : ((prim.sha256 (prim.sha256
      (n :: prim.ripemd160 (prim.sha256 p.encodeUncompressedSecBytes)))).take 4).length = 4 := by
    rw [List.length_take, hsha]; rfl
  have hcopy : copy (List.replicate 4 0) ((prim.sha256 (prim.sha256
      (n :: prim.ripemd160 (prim.sha256 p.encodeUncompressedSecBytes)))).take 4)
      = (prim.sha256 (prim.sha256
      (n :: prim.ripemd160 (prim.sha256 p.encodeUncompressedSecBytes)))).take 4 := by
    unfold copy
    rw [List.length_replicate, hck, List.take_take]
    simp
  refine ⟨(n :: prim.ripemd160 (prim.sha256 p.encodeUncompressedSecBytes)) ++
    (prim.sha256 (prim.sha256
      (n :: prim.ripemd160 (prim.sha256 p.encodeUncompressedSecBytes)))).take 4,
    ?_, ?_, encodeUncompressedSecBytes_length p, ?_, ?_, ?_⟩
  · rw [List.length_append, hlen, hck]
  · simp
  · rw [List.cons_append, List.drop_succ_cons, List.drop_zero, List.take_left' hd]
  · rw [List.drop_left' hlen, List.take_left' hlen]
  · intro h
    rw [GetAddress_eq prim h p n hrip hn, hcopy]

/-- Instance of claim C8 at the generator `G`, the network byte 111 and the stand-in
primitives. -/
theorem GetAddress_is_base58_of_payload_witness :
    ∃ payload : List Nat,
      payload.length = 25 ∧ payload[0]? = some 111 ∧
      G.encodeUncompressedSecBytes.length = 33 ∧
      (payload.drop 1).take 20
        = samplePrimitives.ripemd160 (samplePrimitives.sha256 G.encodeUncompressedSecBytes) ∧
      payload.drop 21
        = (samplePrimitives.sha256 (samplePrimitives.sha256 (payload.take 21))).take 4 ∧
      ∀ h : Hasher, (G.GetAddress samplePrimitives h 111).1
        = samplePrimitives.b58Encode payload :=
  GetAddress_is_base58_of_payload samplePrimitives G 111
    (fun _ => List.length_replicate _ _) (fun _ => List.length_replicate _ _) (by decide)

/-! ## Claims C11 to C20 -/

theorem two_pow_64_lt_P : (2 : Int) ^ 64 < P.val := by decide

/-- The value `Minus` returns on valid elements, by the sign and size of the difference. -/
theorem Minus_value_of_valid {a b : FieldElement} (ha : a.Valid) (hb : b.Valid) :
    a.Minus b = .ok ⟨if 0 ≤ a.Value - b.Value ∧ a.Value - b.Value < 2 ^ 64
      then a.Value - b.Value else P.val - |a.Value - b.Value|, P⟩ := by
  obtain ⟨haf, ha0, halt⟩ := ha
  obtain ⟨hbf, hb0, hblt⟩ := hb
  have h64 := two_pow_64_lt_P
  rw [Minus_of_field haf hbf]
  by_cases h : 0 ≤ a.Value - b.Value ∧ a.Value - b.Value < 2 ^ 64
  · have hu : IsUint64 (a.Value - b.Value) = true := by
      unfold IsUint64
      rw [decide_eq_true h.1, decide_eq_true h.2]
      rfl
    rw [hu, if_pos rfl, if_pos h, Int.emod_eq_of_lt h.1 (by omega)]
  · have hu : IsUint64 (a.Value - b.Value) = false := by
      simp only [IsUint64, Bool.and_eq_false_iff, decide_eq_false_iff_not]
      by_cases h0 : 0 ≤ a.Value - b.Value
      · exact Or.inr (fun h2 => h ⟨h0, h2⟩)
      · exact Or.inl h0
    have habs : |a.Value - b.Value| < P.val := by
      rw [abs_lt]; constructor <;> omega
    rw [hu, if_neg (by simp), if_neg h, Int.emod_eq_of_lt (abs_nonneg _) habs]

/-- Claim C11: for valid elements `a`, `b` of the secp256k1 field, `Add`, `Mul` and `Minus`
each return an element whose value lies in `[0, P)`. -/
theorem field_operations_closed (a b : FieldElement) (ha : a.Valid) (hb : b.Valid) :
    (∃ r, a.Add b = .ok r ∧ 0 ≤ r.Value ∧ r.Value < P.val) ∧
    (∃ r, a.Mul b = .ok r ∧ 0 ≤ r.Value ∧ r.Value < P.val) ∧
    (∃ r, a.Minus b = .ok r ∧ 0 ≤ r.Value ∧ r.Value < P.val) := by
  have hP := P_val_pos
  refine ⟨⟨_, Add_of_field ha.1 hb.1, Int.emod_nonneg _ P_val_ne_zero,
      Int.emod_lt_of_pos _ hP⟩,
    ⟨_, Mul_of_field ha.1 hb.1, Int.emod_nonneg _ P_val_ne_zero, Int.emod_lt_of_pos _ hP⟩,
    ⟨_, Minus_value_of_valid ha hb, ?_⟩⟩
  obtain ⟨-, ha0, halt⟩ := ha
  obtain ⟨-, hb0, hblt⟩ := hb
  simp only []
  by_cases h : 0 ≤ a.Value - b.Value ∧ a.Value - b.Value < 2 ^ 64
  · rw [if_pos h]; constructor <;> omega
  · rw [if_neg h]
    have h1 : 0 < |a.Value - b.Value| := by
      rw [abs_pos]
      intro h0
      apply h
      rw [h0]
      decide
    have h2 : |a.Value - b.Value| < P.val := by
      rw [abs_lt]; constructor <;> omega
    constructor <;> omega

/-- Instance of claim C11 at `a = 2^64`, `b = 0` (a difference that does not fit a
`uint64`). -/
theorem field_operations_closed_witness :
    (∃ r, FieldElement.Add ⟨2 ^ 64, P⟩ ⟨0, P⟩ = .ok r ∧ 0 ≤ r.Value ∧ r.Value < P.val) ∧
    (∃ r, FieldElement.Mul ⟨2 ^ 64, P⟩ ⟨0, P⟩ = .ok r ∧ 0 ≤ r.Value ∧ r.Value < P.val) ∧
    (∃ r, FieldElement.Minus ⟨2 ^ 64, P⟩ ⟨0, P⟩ = .ok r ∧ 0 ≤ r.Value ∧ r.Value < P.val) :=
  field_operations_closed ⟨2 ^ 64, P⟩ ⟨0, P⟩ (by decide) (by decide)

/-- Claim C19: for valid elements `a`, `b` with `d = a.Value - b.Value`, `Minus` returns the
value `d` when `0 ≤ d < 2^64`, `P - (b.Value - a.Value)` when `d < 0`, and `P - d` when
`d ≥ 2^64`. -/
theorem Minus_exact_behaviour (a b : FieldElement) (ha : a.Valid) (hb : b.Valid) :
    (0 ≤ a.Value - b.Value → a.Value - b.Value < 2 ^ 64 →
      a.Minus b = .ok ⟨a.Value - b.Value, P⟩) ∧
    (a.Value - b.Value < 0 → a.Minus b = .ok ⟨P.val - (b.Value - a.Value), P⟩) ∧
    (2 ^ 64 ≤ a.Value - b.Value → a.Minus b = .ok ⟨P.val - (a.Value - b.Value), P⟩) := by
  rw [Minus_value_of_valid ha hb]
  refine ⟨fun h0 h1 => by rw [if_pos ⟨h0, h1⟩], fun h => ?_, fun h => ?_⟩
  · rw [if_neg (fun h2 => absurd h2.1 (not_le.2 h)), abs_of_neg h, neg_sub]
  · rw [if_neg (fun h2 => absurd h2.2 (not_lt.2 h)),
      abs_of_nonneg (le_trans (by decide) h)]

/-- Instance of claim C19 at `a = 5`, `b = 7`. -/
theorem Minus_exact_behaviour_witness :
    (0 ≤ (FieldElement.mk 5 P).Value - (FieldElement.mk 7 P).Value →
      (FieldElement.mk 5 P).Value - (FieldElement.mk 7 P).Value < 2 ^ 64 →
      FieldElement.Minus ⟨5, P⟩ ⟨7, P⟩
        = .ok ⟨(FieldElement.mk 5 P).Value - (FieldElement.mk 7 P).Value, P⟩) ∧
    ((FieldElement.mk 5 P).Value - (FieldElement.mk 7 P).Value < 0 →
      FieldElement.Minus ⟨5, P⟩ ⟨7, P⟩
        = .ok ⟨P.val - ((FieldElement.mk 7 P).Value - (FieldElement.mk 5 P).Value), P⟩) ∧
    (2 ^ 64 ≤ (FieldElement.mk 5 P).Value - (FieldElement.mk 7 P).Value →
      FieldElement.Minus ⟨5, P⟩ ⟨7, P⟩
        = .ok ⟨P.val - ((FieldElement.mk 5 P).Value - (FieldElement.mk 7 P).Value), P⟩) :=
  Minus_exact_behaviour ⟨5, P⟩ ⟨7, P⟩ (by decide) (by decide)

/-- Claim C12, refuted as stated: for the 64-bit signed integer `-1` the constructor returns
the value `2^256 - 1`, which is not below `P` and not congruent to `-1` modulo `P`. -/
theorem NewSecp256k1FieldElement_negative_not_normalized :
    -(2 : Int) ^ 63 ≤ -1 ∧ (-1 : Int) < 2 ^ 63 ∧
    NewSecp256k1FieldElement (-1) = ⟨2 ^ 256 - 1, P⟩ ∧
    ¬ (NewSecp256k1FieldElement (-1)).Value < P.val ∧
    (NewSecp256k1FieldElement (-1)).Value % P.val ≠ (-1) % P.val := by
  decide

/-- Claim C12, amended: for every 64-bit signed integer `v` the constructor returns an
element with `Field = P` whose value is the 256-bit wrap `v mod 2^256`; for `v ≥ 0` that
value is `v` itself, lies in `[0, P)` and is congruent to `v` modulo `P`; for `v < 0` it is
`v + 2^256`, which is not congruent to `v` modulo `P`, and is below `P` only when
`v < -(2^32 + 977)`. -/
theorem NewSecp256k1FieldElement_value (v : Int) (hlo : -(2 : Int) ^ 63 ≤ v)
    (hhi : v < 2 ^ 63) :
    (NewSecp256k1FieldElement v).Field = P ∧
    (NewSecp256k1FieldElement v).Value = v % 2 ^ 256 ∧
    (0 ≤ v → (NewSecp256k1FieldElement v).Value = v ∧
      0 ≤ (NewSecp256k1FieldElement v).Value ∧ (NewSecp256k1FieldElement v).Value < P.val ∧
      (NewSecp256k1FieldElement v).Value % P.val = v % P.val) ∧
    (v < 0 → (NewSecp256k1FieldElement v).Value = v + 2 ^ 256 ∧
      (NewSecp256k1FieldElement v).Value % P.val ≠ v % P.val ∧
      ((NewSecp256k1FieldElement v).Value < P.val ↔ v < -(2 ^ 32 + 977))) := by
  have h63 : (2 : Int) ^ 63 < P.val := by decide
  have hP : P.val = (2 : Int) ^ 256 - (2 ^ 32 + 977) := by decide
  have h256 : (2 : Int) ^ 63 < 2 ^ 256 := by decide
  have hval : (NewSecp256k1FieldElement v).Value = v % 2 ^ 256 := rfl
  refine ⟨rfl, hval, fun h0 => ?_, fun hneg => ?_⟩
  · have hv : v % 2 ^ 256 = v := Int.emod_eq_of_lt h0 (by omega)
    rw [hval, hv]
    exact ⟨rfl, h0, by omega, rfl⟩
  · have hv : v % 2 ^ 256 = v + 2 ^ 256 := by
      rw [← Int.add_emod_self, Int.emod_eq_of_lt (by omega) (by omega)]
    rw [hval, hv]
    refine ⟨rfl, fun hc => ?_, by rw [hP]; constructor <;> intro h <;> omega⟩
    have h1 : v + 2 ^ 256 ≡ v + 0 [ZMOD P.val] := by rw [add_zero]; exact hc
    have h2 : (2 : Int) ^ 256 % P.val = 0 % P.val := Int.ModEq.add_left_cancel' v h1
    revert h2
    decide

/-- Instance of the amended claim C12 at `v = 3`. -/
theorem NewSecp256k1FieldElement_value_witness :
    (NewSecp256k1FieldElement 3).Field = P ∧
    (NewSecp256k1FieldElement 3).Value = 3 % 2 ^ 256 ∧
    ((0 : Int) ≤ 3 → (NewSecp256k1FieldElement 3).Value = 3 ∧
      0 ≤ (NewSecp256k1FieldElement 3).Value ∧ (NewSecp256k1FieldElement 3).Value < P.val ∧
      (NewSecp256k1FieldElement 3).Value % P.val = 3 % P.val) ∧
    ((3 : Int) < 0 → (NewSecp256k1FieldElement 3).Value = 3 + 2 ^ 256 ∧
      (NewSecp256k1FieldElement 3).Value % P.val ≠ 3 % P.val ∧
      ((NewSecp256k1FieldElement 3).Value < P.val ↔ (3 : Int) < -(2 ^ 32 + 977))) :=
  NewSecp256k1FieldElement_value 3 (by decide) (by decide)

/-- Claim C13: doubling the generator `G` with `MultiplyScalar` as implemented returns a
point on which `IsOnSecpCurve` returns true. -/
theorem MultiplyScalar_G_is_on_curve :
    (G.MultiplyScalar >>= fun q => q.IsOnSecpCurve) = .ok true := by
  decide

/-- Claim C14: `IsOnSecpCurve` returns true on the generator `G` with the published
coordinates, the modulus `P = 2^256 - 2^32 - 977` and the curve constant 7 of `init`. -/
theorem G_is_on_curve :
    G.IsOnSecpCurve = .ok true ∧
    G.X.Value = 0x79BE667EF9DCBBAC55A06295CE870B07029BFCDB2DCE28D959F2815B16F81798 ∧
    G.Y.Value = 0x483ADA7726A3C4655DA4FBFC0E1108A8FD17B448A68554199C47D08FFB10D4B8 ∧
    G.X.Field = P ∧ G.Y.Field = P ∧
    P.val = 2 ^ 256 - 2 ^ 32 - 977 ∧ B.Value = 7 ∧ B.Field = P := by
  decide

/-- Claim C15: for valid elements `a`, `b` of the secp256k1 field with `b.Value ≠ 0`, `Div`
returns the element of value `(a.Value * (b.Value^(P-2) mod P)) mod P`, where
`b.Value^(P-2) mod P` is the inverse of `b`: its product with `b.Value` is 1 modulo `P`. -/
theorem Div_is_mul_by_fermat_inverse (a b : FieldElement) (ha : a.Valid) (hb : b.Valid)
    (hb0 : b.Value ≠ 0) :
    a.Div b = .ok ⟨a.Value * (b.Value ^ (P.val - 2).toNat % P.val) % P.val, P⟩ ∧
    b.Value * (b.Value ^ (P.val - 2).toNat % P.val) % P.val = 1 :=
  ⟨Div_of_field ha.1 hb.1,
    mul_fermat_inverse b.Value (lt_of_le_of_ne hb.2.1 (Ne.symm hb0)) hb.2.2⟩

/-- Instance of claim C15 at `a = 5`, `b = 3`. -/
theorem Div_is_mul_by_fermat_inverse_witness :
    FieldElement.Div ⟨5, P⟩ ⟨3, P⟩
      = .ok ⟨(FieldElement.mk 5 P).Value
          * ((FieldElement.mk 3 P).Value ^ (P.val - 2).toNat % P.val) % P.val, P⟩ ∧
    (FieldElement.mk 3 P).Value
      * ((FieldElement.mk 3 P).Value ^ (P.val - 2).toNat % P.val) % P.val = 1 :=
  Div_is_mul_by_fermat_inverse ⟨5, P⟩ ⟨3, P⟩ (by decide) (by decide) (by decide)

/-- Claim C16: for valid elements `a`, `b` of the secp256k1 field, `Add` returns the value
`(a.Value + b.Value) mod P` and `Mul` the value `(a.Value * b.Value) mod P`. -/
theorem Add_Mul_values (a b : FieldElement) (ha : a.Valid) (hb : b.Valid) :
    a.Add b = .ok ⟨(a.Value + b.Value) % P.val, P⟩ ∧
    a.Mul b = .ok ⟨a.Value * b.Value % P.val, P⟩ :=
  ⟨Add_of_field ha.1 hb.1, Mul_of_field ha.1 hb.1⟩

/-- Instance of claim C16 at the coordinates of the generator `G`. -/
theorem Add_Mul_values_witness :
    G.X.Add G.Y = .ok ⟨(G.X.Value + G.Y.Value) % P.val, P⟩ ∧
    G.X.Mul G.Y = .ok ⟨G.X.Value * G.Y.Value % P.val, P⟩ :=
  Add_Mul_values G.X G.Y (by decide) (by decide)

/-- Claim C17: for every point, whatever the integer `Y.Value` (also when its big-endian
bytes are fewer or more than 32), `encodeUncompressedSecBytes` returns exactly 33 bytes and
byte 0 is `0x02` or `0x03` (it is always `0x03`). -/
theorem encodeUncompressedSecBytes_length_and_first_byte (p : Point) :
    p.encodeUncompressedSecBytes.length = 33 ∧
    (p.encodeUncompressedSecBytes[0]? = some 2 ∨ p.encodeUncompressedSecBytes[0]? = some 3) := by
  refine ⟨encodeUncompressedSecBytes_length p, Or.inr ?_⟩
  rw [encodeUncompressedSecBytes_eq]
  simp

/-- Two successive calls of `MultiplyScalar` from `G` return `doubledTwiceG`. -/
theorem MultiplyScalar_twice_G :
    (G.MultiplyScalar >>= fun q => q.MultiplyScalar) = .ok doubledTwiceG := by
  decide

/-- Claim C18, evaluated at the failing input: the point `doubledTwiceG` (returned by
doubling `G` twice) has valid coordinates, a non-zero `Y`, and `IsOnSecpCurve` returns true
on it; `MultiplyScalar` returns a point on which `IsOnSecpCurve` returns false. -/
theorem MultiplyScalar_leaves_the_curve :
    doubledTwiceG.X.Valid ∧ doubledTwiceG.Y.Valid ∧ doubledTwiceG.Y.Value ≠ 0 ∧
    doubledTwiceG.IsOnSecpCurve = .ok true ∧
    (doubledTwiceG.MultiplyScalar >>= fun q => q.IsOnSecpCurve) = .ok false := by
  decide

/-- Claim C20, refuted as stated: with the modulus instance `F7` (modulus 7) and the
elements `3` and `5` tagged with it, `Add` and `Mul` return elements tagged with `P`, not
`F7`; `Minus` returns the value `P - 2`, not reduced modulo 7; `Div` panics. -/
theorem operations_do_not_preserve_other_field :
    F7 ≠ P ∧
    FieldElement.Add ⟨3, F7⟩ ⟨5, F7⟩ = .ok ⟨1, P⟩ ∧
    FieldElement.Mul ⟨3, F7⟩ ⟨5, F7⟩ = .ok ⟨1, P⟩ ∧
    FieldElement.Minus ⟨3, F7⟩ ⟨5, F7⟩ = .ok ⟨P.val - 2, F7⟩ ∧
    ¬ (P.val - 2 < F7.val) ∧
    FieldElement.Div ⟨3, F7⟩ ⟨5, F7⟩ = .error .fieldsAreDifferent := by
  decide

/-- Claim C20, amended: for elements `a`, `b` tagged with the same modulus instance `F` of
non-zero value, `Add` and `Mul` return the value reduced modulo `F` but tagged with the
global `P`; `Minus` returns an element tagged with `F`, its value reduced modulo `F` when the
difference fits a `uint64` and `P - (|d| mod P)` otherwise; `Div` panics unless `F` has the
address of `P`; and when `F` is `P`, `Div` returns an element tagged with `P` whose value is
in `[0, P)`. -/
theorem field_tag_behaviour (a b : FieldElement) (hab : a.Field = b.Field)
    (hF : a.Field.val ≠ 0) :
    a.Add b = .ok ⟨(a.Value + b.Value) % a.Field.val, P⟩ ∧
    a.Mul b = .ok ⟨a.Value * b.Value % a.Field.val, P⟩ ∧
    a.Minus b = .ok ⟨if IsUint64 (a.Value - b.Value) then (a.Value - b.Value) % a.Field.val
      else P.val - |a.Value - b.Value| % P.val, a.Field⟩ ∧
    (a.Field.addr ≠ P.addr → a.Div b = .error .fieldsAreDifferent) ∧
    (a.Field = P → ∃ r, a.Div b = .ok r ∧ r.Field = P ∧ 0 ≤ r.Value ∧ r.Value < P.val) := by
  refine ⟨?_, ?_, ?_, ?_, ?_⟩
  · simp [FieldElement.Add, bigMod, hF, ← hab, bind, Except.bind, pure, Except.pure]
  · simp [FieldElement.Mul, bigMod, hF, ← hab, bind, Except.bind, pure, Except.pure]
  · unfold FieldElement.Minus
    by_cases h : IsUint64 (a.Value - b.Value) = true <;>
      simp [← hab, bigMod, hF, P_val_ne_zero, bind, Except.bind, pure, Except.pure, h]
  · intro hne
    unfold FieldElement.Div
    rw [if_neg (by simp [hab])]
    simp only []
    unfold FieldElement.Mul
    rw [if_pos hne]
  · intro hP
    have hb : b.Field = P := by rw [← hab]; exact hP
    have h := Div_of_field hP hb
    generalize a.Value * (b.Value ^ (P.val - 2).toNat % P.val) = x at h
    exact ⟨⟨x % P.val, P⟩, h, rfl, Int.emod_nonneg _ P_val_ne_zero,
      Int.emod_lt_of_pos _ P_val_pos⟩

/-- Instance of the amended claim C20 at the elements `5` and `7` tagged with `P`. -/
theorem field_tag_behaviour_witness :
    (FieldElement.mk 5 P).Add (FieldElement.mk 7 P)
      = .ok ⟨((FieldElement.mk 5 P).Value + (FieldElement.mk 7 P).Value)
          % (FieldElement.mk 5 P).Field.val, P⟩ ∧
    (FieldElement.mk 5 P).Mul (FieldElement.mk 7 P)
      = .ok ⟨(FieldElement.mk 5 P).Value * (FieldElement.mk 7 P).Value
          % (FieldElement.mk 5 P).Field.val, P⟩ ∧
    (FieldElement.mk 5 P).Minus (FieldElement.mk 7 P)
      = .ok ⟨if IsUint64 ((FieldElement.mk 5 P).Value - (FieldElement.mk 7 P).Value)
          then ((FieldElement.mk 5 P).Value - (FieldElement.mk 7 P).Value)
            % (FieldElement.mk 5 P).Field.val
          else P.val - |(FieldElement.mk 5 P).Value - (FieldElement.mk 7 P).Value| % P.val,
        (FieldElement.mk 5 P).Field⟩ ∧
    ((FieldElement.mk 5 P).Field.addr ≠ P.addr →
      (FieldElement.mk 5 P).Div (FieldElement.mk 7 P) = .error .fieldsAreDifferent) ∧
    ((FieldElement.mk 5 P).Field = P →
      ∃ r, (FieldElement.mk 5 P).Div (FieldElement.mk 7 P) = .ok r ∧ r.Field = P ∧
        0 ≤ r.Value ∧ r.Value < P.val) :=
  field_tag_behaviour ⟨5, P⟩ ⟨7, P⟩ rfl (by decide)

end BitcoinAddressGenerator
